import Mathlib

/-!
Verification of the recursive diff-summarization core of `gpt_commit_msg.py`.

Texts are modelled as lists of characters.  The external LLM client
(`llmlib.Llm`) is modelled as a pair of pure functions `tokens` (the
tokenizer, `get_num_tokens`) and `ask`, as the specification describes it
(pure and deterministic).  The module-level `max_token_count[args.model]`
read inside `commit_message` and `summarize` is passed as an explicit
`budget` argument; the lookup table itself is `maxTokenCount` below.

Calls to the LLM and entries into `summarize` are additionally recorded in
an event trace (a `List Ev` threaded through the functions) so that
properties about which LLM calls are made, and on which control path, can
be stated.  The traces change no control flow and no returned value.
-/

/-- Texts (Python `str`) are lists of characters. -/
abbrev Txt := List Char

/-- Conversion from Lean string literals to texts. -/
def str (s : String) : Txt := s.toList

/-- The three regex patterns of the default delimiter ladder
`splitre=(r"^(diff )", "^$", "\n")` in `summarize`. -/
inductive Pat
  | diffPat    -- r"^(diff )"
  | blankPat   -- "^$"
  | newlinePat -- "\n"
deriving DecidableEq, Repr

/-- The literal characters of `"diff "`. -/
def diffWord : Txt := ['d', 'i', 'f', 'f', ' ']

/-- `startsWithChars p l` holds when the text `l` begins with `p`. -/
def startsWithChars : Txt → Txt → Bool
  | [], _ => true
  | _ :: _, [] => false
  | p :: ps, c :: cs => p == c && startsWithChars ps cs

/-- Prepend a character to the first element of a list of texts
(used by the splitters to build the current segment). -/
def consHead (c : Char) : List Txt → List Txt
  | [] => [[c]]
  | s :: rest => (c :: s) :: rest

/-- Model of `re.split(r"^(diff )", text, flags=re.MULTILINE)`.
The Boolean argument records whether the current position is at the
beginning of a line.  Because the pattern has a capture group, each
matched `"diff "` appears as its own element of the result, between the
segment before the match and the segment after it. -/
def splitDiffAux : Bool → Txt → List Txt
  | true, 'd' :: 'i' :: 'f' :: 'f' :: ' ' :: rest =>
      [] :: diffWord :: splitDiffAux false rest
  | _, c :: cs => consHead c (splitDiffAux (c == '\n') cs)
  | _, [] => [[]]

/-- Model of `re.split("^$", text, flags=re.MULTILINE)`.
`"^$"` matches zero-width at every position that starts a line and is
immediately followed by a newline or the end of the string; the split
cuts the text at every such position. -/
def splitBlankAux : Bool → Txt → List Txt
  | true, [] => [[], []]
  | false, [] => [[]]
  | true, '\n' :: cs => [] :: consHead '\n' (splitBlankAux true cs)
  | _, c :: cs => consHead c (splitBlankAux (c == '\n') cs)

/-- Model of `re.split("\n", text)`: the pieces between newlines, with the
newlines discarded (the pattern has no capture group). -/
def splitNlAux : Txt → List Txt
  | [] => [[]]
  | '\n' :: cs => [] :: splitNlAux cs
  | c :: cs => consHead c (splitNlAux cs)

/-- `re.split(pattern, text, flags=re.MULTILINE)` for each ladder rung
(line 64 of the source). -/
def reSplit : Pat → Txt → List Txt
  | .diffPat, t => splitDiffAux true t
  | .blankPat, t => splitBlankAux true t
  | .newlinePat, t => splitNlAux t

/-- `re.match(pattern, part)` (line 69 of the source; no MULTILINE flag):
`r"^(diff )"` matches texts starting with `"diff "`; `"^$"` matches
exactly `""` and `"\n"`; `"\n"` matches texts starting with a newline. -/
def reMatch : Pat → Txt → Bool
  | .diffPat, part => startsWithChars diffWord part
  | .blankPat, part => part == [] || part == ['\n']
  | .newlinePat, part => startsWithChars ['\n'] part

/-- The recombination loop of `summarize` (lines 65-73): go through the
raw split and glue each non-matching part onto the previous combined
part; matching parts (and the very first part) start a new combined part.
The accumulator holds the combined parts in reverse order. -/
def combineAux (pat : Pat) : List Txt → List Txt → List Txt
  | racc, [] => racc.reverse
  | racc, part :: rest =>
    match racc with
    | [] => combineAux pat [part] rest
    | lastP :: others =>
      if reMatch pat part then combineAux pat (part :: lastP :: others) rest
      else combineAux pat ((lastP ++ part) :: others) rest

/-- Lines 64-73 of `summarize`: split `text` by the current pattern and
recombine, producing the final `parts` list. -/
def splitParts (pat : Pat) (text : Txt) : List Txt :=
  combineAux pat [] (reSplit pat text)

/-- The external LLM client: a pure tokenizer and a pure completion
function, per the specification's collaborator contract. -/
structure Llm where
  tokens : Txt → Nat
  ask : Txt → Txt

/-- Python exceptions that the core can raise.  `indexError` is the
`IndexError` from indexing an empty tuple or list. -/
inductive PyErr
  | indexError
deriving DecidableEq, Repr

/-- Trace events: `askEv q` records `llm.ask(q)`; `baseEv q` records
`summarize` returning through its base case after checking `q`;
`sumEv t` records an invocation of `summarize` on `t`. -/
inductive Ev
  | askEv (q : Txt)
  | baseEv (q : Txt)
  | sumEv (t : Txt)
deriving DecidableEq, Repr

/-- `"".join(ts)` (line 81 of the source). -/
def joinTexts (ts : List Txt) : Txt := ts.flatten

/-- `"\n\n".join(ts)` (lines 35, 43, 46 of the source). -/
def joinNN (ts : List Txt) : Txt := List.intercalate (str "\n\n") ts

/-- The default delimiter ladder of `summarize` (lines 50-54). -/
def defaultLadder : List Pat := [.diffPat, .blankPat, .newlinePat]

/-- The default `prompt` argument of `summarize` (line 55). -/
def sumPromptDefault : Txt :=
  str "Make an unordered list of the effects of every change in this diff.\n\n"

/-- The compression prompt passed to `summarize` inside the loop of
`commit_message` (line 41, including the `.n\n` typo of the source). -/
def compressPrompt : Txt :=
  str "Make an unordered list that summarizes the changes described below.n\n"

/-- The `"## More Detail"` heading (lines 34 and 42). -/
def moreDetail : Txt := str "## More Detail"

/-- The `for part in parts[1:]` loop of `summarize` (lines 77-91).
State: accumulated `summaries`, current `chunk`, its running token count
`chunkT`, and the remaining parts.  `recur` is the recursive call to
`summarize` with the remaining ladder (line 85).  When the running count
plus the next part's count reaches or exceeds the budget, the current
chunk is flushed: re-split recursively if its own token count exceeds the
budget, otherwise sent to the LLM once.  After the loop the function
returns `summaries`; the chunk still in progress is not flushed. -/
def summarizeLoop (recur : Txt → List Ev → Except PyErr (List Txt) × List Ev)
    (llm : Llm) (budget : Nat) (prompt : Txt) :
    List Txt → List Txt → Nat → List Txt → List Ev →
    Except PyErr (List Txt) × List Ev
  | summaries, _chunk, _chunkT, [], σ => (.ok summaries, σ)
  | summaries, chunk, chunkT, part :: rest, σ =>
    if chunkT + llm.tokens part ≥ budget then
      if llm.tokens (joinTexts chunk) > budget then
        match recur (joinTexts chunk) σ with
        | (.ok subs, σ2) =>
            summarizeLoop recur llm budget prompt (summaries ++ subs)
              [part] (llm.tokens part) rest σ2
        | (.error e, σ2) => (.error e, σ2)
      else
        summarizeLoop recur llm budget prompt
          (summaries ++ [llm.ask (prompt ++ joinTexts chunk)])
          [part] (llm.tokens part) rest
          (σ ++ [.askEv (prompt ++ joinTexts chunk)])
    else
      summarizeLoop recur llm budget prompt summaries
        (chunk ++ [part]) (chunkT + llm.tokens part) rest σ

/-- `summarize` (lines 48-91 of the source).  `budget` is
`max_token_count[args.model]`.  If `prompt + text` fits the budget the
LLM is asked directly (base case, lines 60-61).  Otherwise the text is
split by the first ladder pattern and recombined (lines 63-73) and the
chunk loop runs (lines 75-91); with an empty ladder, `splitre[0]` raises
`IndexError`. -/
def summarize (llm : Llm) (budget : Nat) (text : Txt) (splitre : List Pat)
    (prompt : Txt) (σ : List Ev) : Except PyErr (List Txt) × List Ev :=
  if llm.tokens (prompt ++ text) ≤ budget then
    (.ok [llm.ask (prompt ++ text)],
     σ ++ [Ev.sumEv text, Ev.baseEv (prompt ++ text), Ev.askEv (prompt ++ text)])
  else
    match splitre with
    | [] => (.error .indexError, σ ++ [Ev.sumEv text])
    | pat :: rest =>
      match splitParts pat text with
      | [] => (.error .indexError, σ ++ [Ev.sumEv text])
      | p0 :: prest =>
        summarizeLoop (fun t σ' => summarize llm budget t rest prompt σ')
          llm budget prompt [] [p0] (llm.tokens p0) prest
          (σ ++ [Ev.sumEv text])

/-- The `while True` compression loop of `commit_message` (lines 36-46)
together with the final lines 45-46.  The loop's termination depends on
the LLM shrinking the text, so it takes explicit `fuel`: `none` means the
fuel ran out before the joined summaries fit the budget.  When
`final_prompt + overall` fits, the loop breaks, the top-level answer is
asked and inserted at position 0, and the sections are joined with blank
lines. -/
def commitLoop (llm : Llm) (budget : Nat) (finalPrompt : Txt) :
    Nat → List Txt → Txt → List Ev → Option (Except PyErr Txt × List Ev)
  | fuel, result, overall, σ =>
    if llm.tokens (finalPrompt ++ overall) ≤ budget then
      some (.ok (joinNN (llm.ask (finalPrompt ++ overall) :: result)),
            σ ++ [.askEv (finalPrompt ++ overall)])
    else
      match fuel with
      | 0 => none
      | fuel' + 1 =>
        match summarize llm budget overall defaultLadder compressPrompt σ with
        | (.error e, σ2) => some (.error e, σ2)
        | (.ok summaries, σ2) =>
          commitLoop llm budget finalPrompt fuel'
            (summaries ++ moreDetail :: result) (joinNN summaries) σ2

/-- `commit_message` (lines 24-46 of the source).  If `prompt + diff`
fits the budget, one LLM call's answer is returned directly (lines
26-30).  Otherwise `summarize` runs on the diff with the default ladder
and default prompt, the first layer `["## More Detail"] + summaries` is
built, and the compression loop runs (lines 32-46). -/
def commitMessage (fuel : Nat) (llm : Llm) (budget : Nat) (diff : Txt)
    (prompt : Txt) (σ : List Ev) : Option (Except PyErr Txt × List Ev) :=
  if llm.tokens (prompt ++ diff) ≤ budget then
    some (.ok (llm.ask (prompt ++ diff)), σ ++ [.askEv (prompt ++ diff)])
  else
    match summarize llm budget diff defaultLadder sumPromptDefault σ with
    | (.error e, σ2) => some (.error e, σ2)
    | (.ok summaries, σ2) =>
      commitLoop llm budget prompt fuel
        (moreDetail :: summaries) (joinNN summaries) σ2

/-- The module-level `max_token_count` table (lines 14-17): a pure
lookup; an unregistered model name has no entry (in Python the dict
lookup raises `KeyError`, the specification's `UnknownModelError`). -/
def maxTokenCount (m : String) : Option Nat :=
  if m = "gpt-4" then some 8192
  else if m = "gpt-3.5-turbo" then some 4097
  else none

/-- The chunk grouping performed by the loop of lines 75-91, extracted as
a function: starting from the chunk `chunk` with running token count
`chunkT`, group the remaining parts.  A chunk is closed exactly when the
running count plus the next part's token count reaches or exceeds the
budget (the `>=` on line 80); the chunk still open at the end of the loop
is returned as the final group. -/
def assembleGo (llm : Llm) (budget : Nat) :
    List Txt → Nat → List Txt → List (List Txt)
  | chunk, _, [] => [chunk]
  | chunk, chunkT, part :: rest =>
    if chunkT + llm.tokens part ≥ budget then
      chunk :: assembleGo llm budget [part] (llm.tokens part) rest
    else
      assembleGo llm budget (chunk ++ [part]) (chunkT + llm.tokens part) rest

/-- Chunk assembly over a part list, seeded like lines 75-76 of the
source (`chunk = [parts[0]]`, `chunk_tcount = tokens(parts[0])`).  The
empty-parts case does not arise in the source (`parts[0]` would raise). -/
def assembleChunks (llm : Llm) (budget : Nat) : List Txt → List (List Txt)
  | [] => []
  | p0 :: rest => assembleGo llm budget [p0] (llm.tokens p0) rest

/-- Total token count of a chunk, part by part (line 88 of the source). -/
def sumTok (llm : Llm) (c : List Txt) : Nat := (c.map llm.tokens).sum

/-- Recursion-depth gauge for the chunk loop: the maximal nesting depth
of recursive `summarize` calls issued while grouping `parts`, where
`recd t` is the depth used by the recursive call on a flushed over-budget
chunk `t`.  Mirrors `summarizeLoop` branch for branch. -/
def depthLoop (recd : Txt → Nat) (llm : Llm) (budget : Nat) :
    List Txt → Nat → List Txt → Nat
  | _chunk, _chunkT, [] => 0
  | chunk, chunkT, part :: rest =>
    if chunkT + llm.tokens part ≥ budget then
      if llm.tokens (joinTexts chunk) > budget then
        max (1 + recd (joinTexts chunk))
          (depthLoop recd llm budget [part] (llm.tokens part) rest)
      else depthLoop recd llm budget [part] (llm.tokens part) rest
    else depthLoop recd llm budget (chunk ++ [part]) (chunkT + llm.tokens part) rest

/-- Recursion-depth gauge for `summarize`: same control flow as
`summarize`, computing the maximal nesting depth of the recursive calls
of line 85 (0 when no recursive call is made). -/
def sumDepth (llm : Llm) (budget : Nat) (text : Txt) (splitre : List Pat)
    (prompt : Txt) : Nat :=
  if llm.tokens (prompt ++ text) ≤ budget then 0
  else
    match splitre with
    | [] => 0
    | pat :: rest =>
      match splitParts pat text with
      | [] => 0
      | p0 :: prest =>
        depthLoop (fun t => sumDepth llm budget t rest prompt)
          llm budget [p0] (llm.tokens p0) prest

/-- Number of occurrences of `pat` in a text (counted at every starting
position). -/
def countOccur (pat : Txt) : Txt → Nat
  | [] => 0
  | c :: cs => (if startsWithChars pat (c :: cs) then 1 else 0) + countOccur pat cs

/-- Events that the dynamics of `summarize` can legitimately add to a
trace: an entry marker, a base-case marker whose checked query fits the
budget, or an `ask` whose query either fits the budget itself (base case)
or is `prompt ++ chunk` for a chunk whose own token count fits the budget
(the direct ask of line 87, guarded by line 83's check on the chunk
without the prompt). -/
def GoodEv (llm : Llm) (budget : Nat) (prompt : Txt) : Ev → Prop
  | .askEv q => llm.tokens q ≤ budget ∨ ∃ c, q = prompt ++ c ∧ llm.tokens c ≤ budget
  | .baseEv q => llm.tokens q ≤ budget
  | .sumEv _ => True

/-- A concrete LLM whose tokenizer counts characters and whose answers
are the single character `S`. -/
def llmA : Llm := ⟨List.length, fun _ => str "S"⟩

/-- Concrete one-character diff for the three-pass compression scenario. -/
def d9 : Txt := str "d"

/-- Concrete final prompt for the three-pass compression scenario. -/
def p9 : Txt := str "P"

/-- Tokenizer for the three-pass scenario: the final prompt combined
with the diff or with the first two layers' summaries exceeds the budget
of 10; everything else fits. -/
def tokens9 (s : Txt) : Nat :=
  if s = p9 ++ d9 ∨ s = p9 ++ str "1" ∨ s = p9 ++ str "2" then 11 else 5

/-- Answer table for the three-pass scenario: the detail pass summarizes
the diff as `1`, each compression pass shrinks `1` to `2` to `3`, and the
final top-level answer is `F`. -/
def ask9 (q : Txt) : Txt :=
  if q = sumPromptDefault ++ d9 then str "1"
  else if q = compressPrompt ++ str "1" then str "2"
  else if q = compressPrompt ++ str "2" then str "3"
  else if q = p9 ++ str "3" then str "F"
  else str "Z"

/-- The LLM of the three-pass compression scenario. -/
def llm9 : Llm := ⟨tokens9, ask9⟩

/-- Flattening after `consHead` prepends the character. -/
theorem consHead_flatten (c : Char) (l : List Txt) :
    (consHead c l).flatten = c :: l.flatten := by
  cases l <;> simp [consHead]

/-- The characters of the `r"^(diff )"` split concatenate back to the
input: the capture group keeps every matched delimiter in the output. -/
theorem splitDiffAux_flatten (bol : Bool) (cs : Txt) :
    (splitDiffAux bol cs).flatten = cs := by
  induction bol, cs using splitDiffAux.induct <;>
    simp_all [splitDiffAux, consHead_flatten, diffWord]

/-- The characters of the `"^$"` split concatenate back to the input:
all matches are zero-width. -/
theorem splitBlankAux_flatten (bol : Bool) (cs : Txt) :
    (splitBlankAux bol cs).flatten = cs := by
  induction bol, cs using splitBlankAux.induct <;>
    simp_all [splitBlankAux, consHead_flatten]

/-- The recombination loop only concatenates adjacent parts, so the
total character content is preserved, whatever the pattern. -/
theorem combineAux_flatten (pat : Pat) :
    ∀ (parts racc : List Txt),
      (combineAux pat racc parts).flatten = racc.reverse.flatten ++ parts.flatten := by
  intro parts
  induction parts with
  | nil => intro racc; simp [combineAux]
  | cons part rest ih =>
    intro racc
    match racc with
    | [] =>
      rw [combineAux, ih]
      simp
    | lastP :: others =>
      rw [combineAux]
      by_cases h : reMatch pat part
      · rw [if_pos h, ih]
        simp
      · rw [if_neg h, ih]
        simp

/-- Every event the chunk loop adds to the trace is a `GoodEv`, provided
the recursive call only adds `GoodEv`s. -/
theorem summarizeLoop_trace {llm : Llm} {budget : Nat} {prompt : Txt}
    {recur : Txt → List Ev → Except PyErr (List Txt) × List Ev}
    (hrec : ∀ t σ ev, ev ∈ (recur t σ).2 → ev ∈ σ ∨ GoodEv llm budget prompt ev) :
    ∀ (parts summaries chunk : List Txt) (chunkT : Nat) (σ : List Ev) (ev : Ev),
      ev ∈ (summarizeLoop recur llm budget prompt summaries chunk chunkT parts σ).2 →
      ev ∈ σ ∨ GoodEv llm budget prompt ev := by
  intro parts
  induction parts with
  | nil =>
    intro summaries chunk chunkT σ ev h
    simp only [summarizeLoop] at h
    exact Or.inl h
  | cons part rest ih =>
    intro summaries chunk chunkT σ ev h
    simp only [summarizeLoop] at h
    by_cases h1 : chunkT + llm.tokens part ≥ budget
    · rw [if_pos h1] at h
      by_cases h2 : llm.tokens (joinTexts chunk) > budget
      · rw [if_pos h2] at h
        rcases hr : recur (joinTexts chunk) σ with ⟨res, σ2⟩
        rw [hr] at h
        cases res with
        | ok subs =>
          rcases ih _ _ _ _ _ h with h' | h'
          · exact hrec _ _ _ (by rw [hr]; exact h')
          · exact Or.inr h'
        | error e =>
          exact hrec _ _ _ (by rw [hr]; exact h)
      · rw [if_neg h2] at h
        rcases ih _ _ _ _ _ h with h' | h'
        · rcases List.mem_append.mp h' with h'' | h''
          · exact Or.inl h''
          · right
            rcases List.mem_singleton.mp h'' with rfl
            exact Or.inr ⟨joinTexts chunk, rfl, by omega⟩
        · exact Or.inr h'
    · rw [if_neg h1] at h
      exact ih _ _ _ _ _ h

/-- Every event `summarize` adds to the trace is a `GoodEv`: in
particular every base-case marker's query fits the budget, and every
`ask` is either an under-budget query or `prompt ++ chunk` for a chunk
that fits the budget on its own. -/
theorem summarize_trace (llm : Llm) (budget : Nat) (prompt : Txt) :
    ∀ (splitre : List Pat) (text : Txt) (σ : List Ev) (ev : Ev),
      ev ∈ (summarize llm budget text splitre prompt σ).2 →
      ev ∈ σ ∨ GoodEv llm budget prompt ev := by
  have base :
      ∀ (text : Txt) (σ : List Ev) (ev : Ev),
        llm.tokens (prompt ++ text) ≤ budget →
        ev ∈ σ ++ [Ev.sumEv text, Ev.baseEv (prompt ++ text),
                   Ev.askEv (prompt ++ text)] →
        ev ∈ σ ∨ GoodEv llm budget prompt ev := by
    intro text σ ev hin h
    rcases List.mem_append.mp h with h' | h'
    · exact Or.inl h'
    · right
      simp only [List.mem_cons, List.mem_singleton, List.not_mem_nil, or_false] at h'
      rcases h' with rfl | rfl | rfl
      · exact True.intro
      · exact hin
      · exact Or.inl hin
  intro splitre
  induction splitre with
  | nil =>
    intro text σ ev h
    rw [summarize] at h
    by_cases hb : llm.tokens (prompt ++ text) ≤ budget
    · rw [if_pos hb] at h
      exact base text σ ev hb h
    · rw [if_neg hb] at h
      rcases List.mem_append.mp h with h' | h'
      · exact Or.inl h'
      · right
        rcases List.mem_singleton.mp h' with rfl
        exact True.intro
  | cons pat rest ih =>
    intro text σ ev h
    rw [summarize] at h
    by_cases hb : llm.tokens (prompt ++ text) ≤ budget
    · rw [if_pos hb] at h
      exact base text σ ev hb h
    · rw [if_neg hb] at h
      rcases hp : splitParts pat text with _ | ⟨p0, prest⟩
      · rw [hp] at h
        rcases List.mem_append.mp h with h' | h'
        · exact Or.inl h'
        · right
          rcases List.mem_singleton.mp h' with rfl
          exact True.intro
      · rw [hp] at h
        have h' := summarizeLoop_trace (fun t σ' ev' h' => ih t σ' ev' h')
          _ _ _ _ _ _ h
        rcases h' with h' | h'
        · rcases List.mem_append.mp h' with h'' | h''
          · exact Or.inl h''
          · right
            rcases List.mem_singleton.mp h'' with rfl
            exact True.intro
        · exact Or.inr h'

/-- Chunk assembly partitions the parts: flattening the chunks gives
back the seed chunk followed by the remaining parts, in order. -/
theorem assembleGo_flatten (llm : Llm) (budget : Nat) :
    ∀ (parts chunk : List Txt) (chunkT : Nat),
      (assembleGo llm budget chunk chunkT parts).flatten = chunk ++ parts := by
  intro parts
  induction parts with
  | nil => intro chunk chunkT; simp [assembleGo]
  | cons part rest ih =>
    intro chunk chunkT
    rw [assembleGo]
    by_cases h : chunkT + llm.tokens part ≥ budget
    · rw [if_pos h]
      simp [ih]
    · rw [if_neg h, ih]
      simp

/-- The first chunk produced by `assembleGo` extends the seed chunk. -/
theorem assembleGo_first (llm : Llm) (budget : Nat) :
    ∀ (parts chunk : List Txt) (chunkT : Nat),
      ∃ ext rest2, assembleGo llm budget chunk chunkT parts = (chunk ++ ext) :: rest2 := by
  intro parts
  induction parts with
  | nil => intro chunk chunkT; exact ⟨[], [], by simp [assembleGo]⟩
  | cons part rest ih =>
    intro chunk chunkT
    rw [assembleGo]
    by_cases h : chunkT + llm.tokens part ≥ budget
    · rw [if_pos h]
      exact ⟨[], assembleGo llm budget [part] (llm.tokens part) rest, by simp⟩
    · rw [if_neg h]
      obtain ⟨ext, rest2, heq⟩ := ih (chunk ++ [part]) (chunkT + llm.tokens part)
      exact ⟨[part] ++ ext, rest2, by rw [heq]; simp⟩

/-- Token counts add up part by part when a chunk is extended. -/
theorem sumTok_snoc (llm : Llm) (c : List Txt) (p : Txt) :
    sumTok llm (c ++ [p]) = sumTok llm c + llm.tokens p := by
  simp [sumTok]

/-- A chunk is closed only when the running token total of the closed
chunk plus the first part of the next chunk reaches or exceeds the
budget. -/
theorem assembleGo_boundary (llm : Llm) (budget : Nat) :
    ∀ (parts chunk : List Txt) (i : Nat),
      i + 1 < (assembleGo llm budget chunk (sumTok llm chunk) parts).length →
      sumTok llm ((assembleGo llm budget chunk (sumTok llm chunk) parts).getD i []) +
        llm.tokens (((assembleGo llm budget chunk (sumTok llm chunk) parts).getD (i + 1) []).headD [])
        ≥ budget := by
  intro parts
  induction parts with
  | nil =>
    intro chunk i hi
    simp [assembleGo] at hi
  | cons part rest ih =>
    intro chunk i hi
    rw [assembleGo] at hi ⊢
    have hone : llm.tokens part = sumTok llm [part] := by simp [sumTok]
    by_cases h : sumTok llm chunk + llm.tokens part ≥ budget
    · rw [if_pos h] at hi ⊢
      match i with
      | 0 =>
        obtain ⟨ext, rest2, heq⟩ :=
          assembleGo_first llm budget rest [part] (llm.tokens part)
        rw [heq]
        simp only [List.getD_cons_zero, List.getD_cons_succ]
        simpa using h
      | i' + 1 =>
        simp only [List.getD_cons_succ]
        rw [hone] at hi ⊢
        exact ih [part] i' (by simpa using hi)
    · rw [if_neg h] at hi ⊢
      rw [show sumTok llm chunk + llm.tokens part = sumTok llm (chunk ++ [part]) from
        (sumTok_snoc llm chunk part).symm] at hi ⊢
      exact ih (chunk ++ [part]) i hi

/-- The depth gauge of the chunk loop is at most one more than a bound
on the depths of the recursive calls. -/
theorem depthLoop_le {llm : Llm} {budget : Nat} {recd : Txt → Nat} {n : Nat}
    (h : ∀ t, recd t ≤ n) :
    ∀ (parts chunk : List Txt) (chunkT : Nat),
      depthLoop recd llm budget chunk chunkT parts ≤ n + 1 := by
  intro parts
  induction parts with
  | nil => intro chunk chunkT; simp [depthLoop]
  | cons part rest ih =>
    intro chunk chunkT
    rw [depthLoop]
    by_cases h1 : chunkT + llm.tokens part ≥ budget
    · rw [if_pos h1]
      by_cases h2 : llm.tokens (joinTexts chunk) > budget
      · rw [if_pos h2]
        exact max_le (by have := h (joinTexts chunk); omega) (ih _ _)
      · rw [if_neg h2]
        exact ih _ _
    · rw [if_neg h1]
      exact ih _ _

/-- C1: refuted by the code — for the character-counting LLM, budget 15,
empty prompt and the diff `"diff aaaaaaa\ndiff bbbbbbb"` (25 tokens, over
budget), the parts assemble into two chunks that each fit the budget, yet
a single `summarize` pass returns only one summary: the loop of lines
77-91 never flushes the chunk still in progress when the loop ends, so
the final chunk's content is omitted from the returned sequence. -/
theorem c1_code_eval :
    llmA.tokens ([] ++ str "diff aaaaaaa\ndiff bbbbbbb") > 15 ∧
    assembleChunks llmA 15 (splitParts .diffPat (str "diff aaaaaaa\ndiff bbbbbbb")) =
      [[[], str "diff aaaaaaa\n"], [str "diff bbbbbbb"]] ∧
    llmA.tokens (joinTexts [[], str "diff aaaaaaa\n"]) ≤ 15 ∧
    llmA.tokens (joinTexts [str "diff bbbbbbb"]) ≤ 15 ∧
    (summarize llmA 15 (str "diff aaaaaaa\ndiff bbbbbbb") defaultLadder [] []).1 =
      .ok [str "S"] :=
  ⟨by decide, rfl, by decide, by decide, rfl⟩

/-- C2 counterexample: splitting `"a\nb"` on the `"\n"` rung produces the
single part `"ab"` — the newline is discarded by `re.split` and the
recombination loop then merges the two pieces — so neither joining with
the empty separator nor joining with `"\n"` reconstructs the text; and
splitting `"diff x"` on the first rung produces an empty part. -/
theorem c2_counterexample :
    splitParts .newlinePat (str "a\nb") = [str "ab"] ∧
    joinTexts (splitParts .newlinePat (str "a\nb")) ≠ str "a\nb" ∧
    List.intercalate ['\n'] (splitParts .newlinePat (str "a\nb")) ≠ str "a\nb" ∧
    splitParts .diffPat (str "diff x") = [[], str "diff x"] :=
  ⟨rfl, by decide, by decide, rfl⟩

/-- C2 amended: for every text, splitting on the `r"^(diff )"` rung or on
the `"^$"` rung yields parts whose concatenation (empty-separator join —
these rungs keep or zero-width their delimiters) is exactly the original
text; the `"\n"` rung loses the newlines, and parts may be empty. -/
theorem c2_amended (text : Txt) :
    joinTexts (splitParts .diffPat text) = text ∧
    joinTexts (splitParts .blankPat text) = text := by
  constructor
  · simp only [joinTexts, splitParts, combineAux_flatten]
    simp [reSplit, splitDiffAux_flatten]
  · simp only [joinTexts, splitParts, combineAux_flatten]
    simp [reSplit, splitBlankAux_flatten]

/-- C3: refuted by the code — no `BudgetExhaustedError` exists.  With
budget 6, empty prompt and the diff `"diff aaaa\ndiff bbbb"`, the chunk
`"diff aaaa\n"` (10 tokens) stays over budget down the whole ladder: the
`"^$"` and `"\n"` rungs cannot reduce it, and at the finest rung the
recombination merges everything into one part so the loop body never
runs.  `summarize` returns successfully with the single summary of an
empty chunk; both diff sections' content is silently dropped, with no
error raised.  A call with the ladder actually empty raises a plain
`IndexError` (`splitre[0]` on an empty tuple), not a budget error. -/
theorem c3_code_eval :
    llmA.tokens ([] ++ str "diff aaaa\ndiff bbbb") > 6 ∧
    summarize llmA 6 (str "diff aaaa\ndiff bbbb") defaultLadder [] [] =
      (.ok [str "S"],
       [Ev.sumEv (str "diff aaaa\ndiff bbbb"), Ev.askEv [],
        Ev.sumEv (str "diff aaaa\n"), Ev.sumEv (str "diff aaaa\n")]) ∧
    summarize llmA 0 (str "x") [] [] [] = (.error .indexError, [Ev.sumEv (str "x")]) :=
  ⟨by decide, rfl, rfl⟩

/-- C4: looking up an unregistered model name in the budget table yields
no entry (the Python dict raises `KeyError` — the specification's
`UnknownModelError` — immediately, with no retry and no side effects,
the lookup being a pure function), while the registered names `gpt-4`
and `gpt-3.5-turbo` map to 8192 and 4097. -/
theorem c4_budget_lookup :
    maxTokenCount "gpt-4" = some 8192 ∧
    maxTokenCount "gpt-3.5-turbo" = some 4097 ∧
    ∀ m : String, m ≠ "gpt-4" → m ≠ "gpt-3.5-turbo" → maxTokenCount m = none := by
  refine ⟨rfl, rfl, ?_⟩
  intro m h1 h2
  simp [maxTokenCount, h1, h2]

/-- Witness for C4 at the concrete unregistered name `gpt-5`. -/
theorem c4_witness : maxTokenCount "gpt-5" = none :=
  c4_budget_lookup.2.2 "gpt-5" (by decide) (by decide)

/-- C5: when `tokens(prompt + diff)` is at most the budget,
`commit_message` returns exactly the output of one LLM ask on
`prompt + diff` — the trace holds that single ask event and no
summarization event; `summarize` behaves the same through its base case;
and whenever `summarize` returns via the base case (a `baseEv` marker in
the trace), the checked query fit the budget at the call. -/
theorem c5_base_case (llm : Llm) (budget : Nat) :
    (∀ (diff prompt : Txt) (σ : List Ev) (fuel : Nat),
        llm.tokens (prompt ++ diff) ≤ budget →
        commitMessage fuel llm budget diff prompt σ =
          some (.ok (llm.ask (prompt ++ diff)), σ ++ [.askEv (prompt ++ diff)])) ∧
    (∀ (text : Txt) (splitre : List Pat) (prompt : Txt) (σ : List Ev),
        llm.tokens (prompt ++ text) ≤ budget →
        summarize llm budget text splitre prompt σ =
          (.ok [llm.ask (prompt ++ text)],
           σ ++ [.sumEv text, .baseEv (prompt ++ text), .askEv (prompt ++ text)])) ∧
    (∀ (text : Txt) (splitre : List Pat) (prompt : Txt) (σ : List Ev) (q : Txt),
        Ev.baseEv q ∈ (summarize llm budget text splitre prompt σ).2 →
        Ev.baseEv q ∈ σ ∨ llm.tokens q ≤ budget) := by
  refine ⟨?_, ?_, ?_⟩
  · intro diff prompt σ fuel h
    simp only [commitMessage, if_pos h]
  · intro text splitre prompt σ h
    rw [summarize.eq_def, if_pos h]
  · intro text splitre prompt σ q h
    exact (summarize_trace llm budget prompt splitre text σ (.baseEv q) h).imp
      id (fun g => g)

/-- Witness for C5 at a concrete under-budget input. -/
theorem c5_witness :
    llmA.tokens (str "p" ++ str "d") ≤ 100 ∧
    commitMessage 0 llmA 100 (str "d") (str "p") [] =
      some (.ok (llmA.ask (str "p" ++ str "d")), [Ev.askEv (str "p" ++ str "d")]) :=
  ⟨by decide, (c5_base_case llmA 100).1 (str "d") (str "p") [] 0 (by decide)⟩

/-- C6: chunk assembly is greedy — flattening the chunks restores the
parts in order, a chunk is closed only at a boundary where the closed
chunk's token total plus the next chunk's first part reaches or exceeds
the budget, and for per-part token counts `[5, 5, 5]` with budget 12 the
produced chunks are `[[p0, p1], [p2]]`. -/
theorem c6_greedy_assembly :
    (∀ (llm : Llm) (budget : Nat) (parts : List Txt),
        (assembleChunks llm budget parts).flatten = parts) ∧
    (∀ (llm : Llm) (budget : Nat) (parts : List Txt) (i : Nat),
        i + 1 < (assembleChunks llm budget parts).length →
        sumTok llm ((assembleChunks llm budget parts).getD i []) +
          llm.tokens (((assembleChunks llm budget parts).getD (i + 1) []).headD [])
          ≥ budget) ∧
    assembleChunks llmA 12 [str "aaaaa", str "bbbbb", str "ccccc"] =
      [[str "aaaaa", str "bbbbb"], [str "ccccc"]] := by
  refine ⟨?_, ?_, rfl⟩
  · intro llm budget parts
    match parts with
    | [] => rfl
    | p0 :: rest => simp [assembleChunks, assembleGo_flatten]
  · intro llm budget parts i hi
    match parts with
    | [] => simp [assembleChunks] at hi
    | p0 :: rest =>
      have hone : llm.tokens p0 = sumTok llm [p0] := by simp [sumTok]
      rw [assembleChunks] at hi ⊢
      rw [hone] at hi ⊢
      exact assembleGo_boundary llm budget rest [p0] i hi

/-- Witness for C6's boundary property at the concrete `[5,5,5]`/12
instance. -/
theorem c6_witness :
    sumTok llmA ((assembleChunks llmA 12 [str "aaaaa", str "bbbbb", str "ccccc"]).getD 0 []) +
      llmA.tokens (((assembleChunks llmA 12 [str "aaaaa", str "bbbbb", str "ccccc"]).getD 1 []).headD [])
      ≥ 12 :=
  c6_greedy_assembly.2.1 llmA 12 [str "aaaaa", str "bbbbb", str "ccccc"] 0 (by decide)

/-- C7: the recursive call of line 85 always receives `splitre[1:]`, so
the nesting depth of recursive `summarize` calls, measured by the gauge
`sumDepth`, is bounded by the ladder's length. -/
theorem c7_depth_bound (llm : Llm) (budget : Nat) (splitre : List Pat) (prompt : Txt) :
    ∀ text : Txt, sumDepth llm budget text splitre prompt ≤ splitre.length := by
  induction splitre with
  | nil =>
    intro text
    rw [sumDepth]
    split
    · exact Nat.zero_le _
    · exact Nat.zero_le _
  | cons pat rest ih =>
    intro text
    rw [sumDepth]
    by_cases h : llm.tokens (prompt ++ text) ≤ budget
    · rw [if_pos h]
      exact Nat.zero_le _
    · rw [if_neg h]
      rcases hp : splitParts pat text with _ | ⟨p0, prest⟩
      · simp [hp]
      · have hd := @depthLoop_le llm budget (fun t => sumDepth llm budget t rest prompt)
          rest.length (fun t => ih t) prest [p0] (llm.tokens p0)
        simpa [hp] using hd

/-- C8 counterexample: with the character-counting LLM, budget 10 and
prompt `"PROMPT: "`, the chunk `"diff aaaa\n"` (10 tokens, within
budget on its own) is sent directly to the LLM even though
`tokens(prompt + chunk)` is 18, over budget: line 83 checks the chunk
without the prompt. -/
theorem c8_counterexample :
    Ev.askEv (str "PROMPT: diff aaaa\n") ∈
      (summarize llmA 10 (str "diff aaaa\ndiff bbbb") defaultLadder
        (str "PROMPT: ") []).2 ∧
    llmA.tokens (str "PROMPT: diff aaaa\n") > 10 :=
  ⟨by decide, by decide⟩

/-- C8 amended: every ask issued inside `summarize` either has a query
that itself fits the budget (base case) or is `prompt ++ chunk` for a
chunk whose own token count — without the prompt — fits the budget; the
direct-ask guard of line 83 checks `tokens(chunk)`, not
`tokens(prompt + chunk)`, so a direct loop ask can exceed the budget by
up to the prompt's token count. -/
theorem c8_amended (llm : Llm) (budget : Nat) (text : Txt) (splitre : List Pat)
    (prompt : Txt) (σ : List Ev) (q : Txt)
    (h : Ev.askEv q ∈ (summarize llm budget text splitre prompt σ).2) :
    Ev.askEv q ∈ σ ∨ llm.tokens q ≤ budget ∨
      ∃ c, q = prompt ++ c ∧ llm.tokens c ≤ budget :=
  (summarize_trace llm budget prompt splitre text σ (.askEv q) h).imp id (fun g => g)

/-- Witness for C8's amended theorem at the concrete over-budget ask. -/
theorem c8_witness :
    Ev.askEv (str "PROMPT: diff aaaa\n") ∈ ([] : List Ev) ∨
      llmA.tokens (str "PROMPT: diff aaaa\n") ≤ 10 ∨
      ∃ c, str "PROMPT: diff aaaa\n" = str "PROMPT: " ++ c ∧ llmA.tokens c ≤ 10 :=
  c8_amended llmA 10 (str "diff aaaa\ndiff bbbb") defaultLadder (str "PROMPT: ") []
    (str "PROMPT: diff aaaa\n") (by decide)

/-- C9: the compression loop stops as soon as
`tokens(final_prompt + overall)` fits the budget, asking the final
top-level answer and placing it at position 0 of the document joined
with blank lines; and a concrete run taking three summarization passes
(one detail pass plus two compression iterations) yields the layered
message with the most abstract summary first and exactly three
`"## More Detail"` markers. -/
theorem c9_layering :
    (∀ (llm : Llm) (budget : Nat) (fp : Txt) (fuel : Nat) (result : List Txt)
        (overall : Txt) (σ : List Ev),
        llm.tokens (fp ++ overall) ≤ budget →
        commitLoop llm budget fp fuel result overall σ =
          some (.ok (joinNN (llm.ask (fp ++ overall) :: result)),
                σ ++ [.askEv (fp ++ overall)])) ∧
    (commitMessage 2 llm9 10 d9 p9 []).map Prod.fst =
      some (.ok (str "F\n\n3\n\n## More Detail\n\n2\n\n## More Detail\n\n## More Detail\n\n1")) ∧
    countOccur moreDetail
      (str "F\n\n3\n\n## More Detail\n\n2\n\n## More Detail\n\n## More Detail\n\n1") = 3 := by
  refine ⟨?_, rfl, by decide⟩
  intro llm budget fp fuel result overall σ h
  rw [commitLoop.eq_def]
  dsimp only
  rw [if_pos h]

/-- Witness for C9's loop-stop property at a concrete fitting state. -/
theorem c9_witness :
    llm9.tokens (p9 ++ str "3") ≤ 10 ∧
    commitLoop llm9 10 p9 0 [] (str "3") [] =
      some (.ok (joinNN [llm9.ask (p9 ++ str "3")]), [Ev.askEv (p9 ++ str "3")]) :=
  ⟨by decide, c9_layering.1 llm9 10 p9 0 [] (str "3") [] (by decide)⟩

/-- C10: with the character-counting LLM, budget 3 and empty prompt, the
text `"hello"` is over budget but contains no line starting with
`"diff "`, so the first rung splits it into exactly one part; the chunk
loop then iterates over `parts[1:] = []` and `summarize` returns the
empty list of summaries — no LLM call, no error, and the text's content
absent from the result. -/
theorem c10_single_part_empty :
    llmA.tokens ([] ++ str "hello") > 3 ∧
    splitParts .diffPat (str "hello") = [str "hello"] ∧
    summarize llmA 3 (str "hello") defaultLadder [] [] =
      (.ok [], [Ev.sumEv (str "hello")]) :=
  ⟨by decide, rfl, rfl⟩
